import Mathlib

/-!
Verification of the TextExtractorPro text-interpretation pipeline.

This file is a shallow embedding, in Lean 4, of the Python modules
src/utils/text_cleaning.py and src/processors/text_processor.py
(together with the data model of src/models/menu_item.py), followed by
theorems settling the specification claims about them.

Strings are modelled as lists of characters (Str := List Char).
Python regular-expression substitutions and searches are modelled by
dedicated executable scanners that reproduce the leftmost,
non-overlapping, greedy semantics of the concrete patterns appearing in
the source.  Scanning functions take an explicit fuel argument (always
called with fuel = length of the scanned text, which is sufficient
since every step consumes at least one character); this is purely an
embedding device for structural recursion.  Python floats are modelled
as exact rationals: the only float operation performed by the source is
parsing a decimal digit string, and no claim depends on binary
rounding.
-/

set_option maxRecDepth 100000

abbrev Str := List Char

/-- Characters treated as whitespace by Python str.split / str.strip and
by the regex class backslash-s (modelled for the Latin range). -/
def pyIsSpace (c : Char) : Bool :=
  c = ' ' || c = '\t' || c = '\n' || c = '\x0b' || c = '\x0c' || c = '\r' ||
  c = '\x1c' || c = '\x1d' || c = '\x1e' || c = '\x1f' || c = '\x85' || c = '\xa0'

/-- Python str.isprintable, modelled for the Latin range: false exactly on
control characters (U+0000 to U+001F, U+007F to U+009F) and on the
no-break space U+00A0. -/
def pyIsPrintable (c : Char) : Bool :=
  !(c.val < 0x20 || (0x7f ≤ c.val && c.val ≤ 0x9f) || c = '\xa0')

/-- Accented letters of the Latin range relevant to the Spanish menu text,
paired with their unaccented base letter (the result of NFD
decomposition followed by removal of combining marks). -/
def accentBasePairs : List (Char × Char) :=
  [('á', 'a'), ('é', 'e'), ('í', 'i'), ('ó', 'o'), ('ú', 'u'), ('ü', 'u'), ('ñ', 'n'),
   ('Á', 'A'), ('É', 'E'), ('Í', 'I'), ('Ó', 'O'), ('Ú', 'U'), ('Ü', 'U'), ('Ñ', 'N')]

/-- Uppercase/lowercase pairs for the accented letters. -/
def accentCasePairs : List (Char × Char) :=
  [('Á', 'á'), ('É', 'é'), ('Í', 'í'), ('Ó', 'ó'), ('Ú', 'ú'), ('Ü', 'ü'), ('Ñ', 'ñ')]

/-- Python str.lower, modelled for ASCII and the accented letters above. -/
def pyLowerChar (c : Char) : Char :=
  if 'A' ≤ c && c ≤ 'Z' then Char.ofNat (c.toNat + 32)
  else ((accentCasePairs.lookup c).getD c)

/-- Removal of the accent of a single character (identity on everything
else); models NFD decomposition followed by dropping Mn marks. -/
def stripAccentChar (c : Char) : Char :=
  (accentBasePairs.lookup c).getD c

/-- Cased characters (letters), modelled for ASCII and the accented set. -/
def isCased (c : Char) : Bool :=
  ('a' ≤ c && c ≤ 'z') || ('A' ≤ c && c ≤ 'Z') ||
  accentBasePairs.any (fun p => p.1 = c)

/-- Uppercase cased characters. -/
def isUpperCased (c : Char) : Bool :=
  ('A' ≤ c && c ≤ 'Z') || accentCasePairs.any (fun p => p.1 = c)

/-- Python str.isupper: at least one cased character and no cased
character that is not uppercase. -/
def pyIsUpper (s : Str) : Bool :=
  s.any isCased && s.all (fun c => !isCased c || isUpperCased c)

/-- Word characters for the regex class backslash-w (modelled for ASCII
and the accented letters). -/
def isWordChar (c : Char) : Bool :=
  c.isAlphanum || c = '_' || accentBasePairs.any (fun p => p.1 = c) ||
  accentBasePairs.any (fun p => p.2 = c && !c.isAlphanum)

/-- Python str.strip(): remove leading and trailing whitespace. -/
def pyStrip (s : Str) : Str :=
  ((s.dropWhile pyIsSpace).reverse.dropWhile pyIsSpace).reverse

/-- Helper for pySplit: accumulates the current word (reversed) while
scanning. -/
def pySplitAux : Str → Str → List Str
  | [], cur => if cur = [] then [] else [cur.reverse]
  | c :: cs, cur =>
    if pyIsSpace c then
      if cur = [] then pySplitAux cs [] else cur.reverse :: pySplitAux cs []
    else pySplitAux cs (c :: cur)

/-- Python str.split() with no arguments: split on runs of whitespace,
discarding empty pieces. -/
def pySplit (s : Str) : List Str := pySplitAux s []

/-- Python str.split with a newline separator: text.split(chr(10)). -/
def splitLines : Str → List Str
  | [] => [[]]
  | c :: cs =>
    if c = '\n' then [] :: splitLines cs
    else
      match splitLines cs with
      | [] => [[c]]
      | w :: ws => (c :: w) :: ws

/-- Python chr(32).join(words). -/
def joinSpace : List Str → Str
  | [] => []
  | [w] => w
  | w :: ws => w ++ ' ' :: joinSpace ws

/-- Generic model of re.sub on the current text: at each position try the
matcher; on a match emit the replacement and resume after the consumed
characters, otherwise copy one character.  The matcher returns the
number of characters consumed (at least 1 for every pattern in the
source) and the replacement text.  Fuel is an embedding device; calls
pass the text length, which suffices because every step consumes at
least one character. -/
def subScanF (m : Str → Option (Nat × Str)) : Nat → Str → Str
  | _, [] => []
  | 0, s => s
  | fuel + 1, c :: cs =>
    match m (c :: cs) with
    | some (n, repl) => repl ++ subScanF m fuel (List.drop (max n 1) (c :: cs))
    | none => c :: subScanF m fuel cs

/-- Model of re.sub for matchers that need no left context. -/
def subScan (m : Str → Option (Nat × Str)) (s : Str) : Str := subScanF m s.length s

/-- Separator class of the price-repair pattern: the regex class
containing whitespace, comma, period and hyphen. -/
def sepClass (c : Char) : Bool :=
  pyIsSpace c || c = ',' || c = '.' || c = '-'

/-- Lookahead of the price-repair pattern: optional whitespace followed by
a euro sign, EUR, euros, or a dollar sign. -/
def priceSepLookahead (s : Str) : Bool :=
  let t := s.dropWhile pyIsSpace
  List.isPrefixOf "€".data t || List.isPrefixOf "EUR".data t ||
  List.isPrefixOf "euros".data t || List.isPrefixOf "$".data t

/-- Matcher, at one position, of the price-format repair pattern of
fix_common_ocr_errors: one or more digits, one or more separator-class
characters, exactly two digits, with the currency lookahead; the
replacement joins the two digit groups with a period.  Greedy runs need
no backtracking here because digits and separator-class characters are
disjoint and the lookahead cannot begin with a digit. -/
def matchPriceSep (s : Str) : Option (Nat × Str) :=
  let d1 := s.takeWhile Char.isDigit
  if d1 = [] then none
  else
    let r1 := s.drop d1.length
    let sep := r1.takeWhile sepClass
    if sep = [] then none
    else
      match r1.drop sep.length with
      | a :: b :: rest =>
        if a.isDigit && b.isDigit && priceSepLookahead rest then
          some (d1.length + sep.length + 2, d1 ++ '.' :: [a, b])
        else none
      | _ => none

/-- Ambiguous OCR glyphs: capital O, lowercase l, capital I. -/
def isGlyph (c : Char) : Bool := c = 'O' || c = 'l' || c = 'I'

/-- Matcher, at one position, of one three-character glyph pattern:
a context character satisfying p1, an ambiguous glyph, a context
character satisfying p3; the replacement keeps the two context
characters and writes mid in the middle (reproducing the source, whose
replacement function inserts the current dictionary value regardless of
which glyph matched). -/
def matchGlyph3 (p1 p3 : Char → Bool) (mid : Char) : Str → Option (Nat × Str)
  | a :: b :: c :: _ =>
    if p1 a && isGlyph b && p3 c then some (3, [a, mid, c]) else none
  | _ => none

/-- Replacement dictionary of fix_common_ocr_errors, in source order. -/
def replacementsList : List (Char × Char) := [('O', '0'), ('l', '1'), ('I', '1')]

/-- Context-predicate pairs of the three glyph patterns, in source order:
non-digit/glyph/digit, digit/glyph/non-digit, digit/glyph/digit. -/
def glyphPatterns : List ((Char → Bool) × (Char → Bool)) :=
  [(fun c => !c.isDigit, Char.isDigit),
   (Char.isDigit, fun c => !c.isDigit),
   (Char.isDigit, Char.isDigit)]

/-- Innermost loop of the glyph fix: one pattern, all three dictionary
entries in order. -/
def applyGlyphPattern (p : (Char → Bool) × (Char → Bool)) (s : Str) : Str :=
  replacementsList.foldl (fun t r => subScan (matchGlyph3 p.1 p.2 r.2) t) s

/-- Inner pattern loop of the glyph fix. -/
def glyphInnerLoop (s : Str) : Str :=
  glyphPatterns.foldl (fun t p => applyGlyphPattern p t) s

/-- Full glyph-fix loop: the source nests two loops over the same pattern
list with a shadowed loop variable, so the inner loop runs once per
element of the outer list. -/
def glyphLoops (s : Str) : Str :=
  glyphPatterns.foldl (fun t _ => glyphInnerLoop t) s

/-- Case-insensitive match of a literal pattern against a prefix of the
text, returning the number of characters consumed. -/
def matchLiteralCI : Str → Str → Option Nat
  | [], _ => some 0
  | _ :: _, [] => none
  | p :: ps, c :: cs =>
    if pyLowerChar p = pyLowerChar c then (matchLiteralCI ps cs).map (· + 1)
    else none

/-- Whether the optional previous character is a word character (for word
boundaries at a match start). -/
def prevIsWord (prev : Option Char) : Bool :=
  prev.elim false isWordChar

/-- Word-boundary check after a match: the following character, if any,
must not be a word character. -/
def boundaryAfter (rest : Str) : Bool :=
  rest.head?.elim true (fun c => !isWordChar c)

/-- Matcher for one whole-word case-insensitive correction: the pattern
backslash-b word backslash-b with the IGNORECASE flag. -/
def matchWordCI (w repl : Str) (prev : Option Char) (s : Str) : Option (Nat × Str) :=
  if prevIsWord prev then none
  else
    match matchLiteralCI w s with
    | none => none
    | some n => if boundaryAfter (s.drop n) then some (n, repl) else none

/-- Matcher for the correction entry tor+illa, whose key is itself a regex:
t, o, one or more r (case-insensitive, greedy), i, l, l, a, inside word
boundaries.  A shorter r-run cannot help, since the character after the
run is another r and cannot match i. -/
def matchTorIlla (prev : Option Char) (s : Str) : Option (Nat × Str) :=
  if prevIsWord prev then none
  else
    match matchLiteralCI "to".data s with
    | none => none
    | some n2 =>
      let afterTo := s.drop n2
      let rs := afterTo.takeWhile (fun c => pyLowerChar c = 'r')
      if rs = [] then none
      else
        match matchLiteralCI "illa".data (afterTo.drop rs.length) with
        | none => none
        | some n4 =>
          let total := n2 + rs.length + n4
          if boundaryAfter (s.drop total) then some (total, "tortilla".data)
          else none

/-- Model of re.sub for matchers that test a word boundary on their left:
the previous character of the original text is threaded through the
scan (after a match, the last consumed character). -/
def subScanPrevF (m : Option Char → Str → Option (Nat × Str)) :
    Nat → Option Char → Str → Str
  | _, _, [] => []
  | 0, _, s => s
  | fuel + 1, prev, c :: cs =>
    match m prev (c :: cs) with
    | some (n, repl) =>
      repl ++ subScanPrevF m fuel (((c :: cs).take (max n 1)).getLast? <|> prev)
        (List.drop (max n 1) (c :: cs))
    | none => c :: subScanPrevF m fuel (some c) cs

/-- Model of re.sub with left-context matchers, started at the beginning
of the text. -/
def subScanPrev (m : Option Char → Str → Option (Nat × Str)) (s : Str) : Str :=
  subScanPrevF m s.length none s

/-- Application of the common_corrections dictionary of
fix_common_ocr_errors, entry by entry in source order. -/
def applyCorrections (s : Str) : Str :=
  let s := subScanPrev (matchWordCI "ensaiada".data "ensalada".data) s
  let s := subScanPrev (matchWordCI "hamburgesa".data "hamburguesa".data) s
  let s := subScanPrev (matchWordCI "cale".data "café".data) s
  let s := subScanPrev (matchWordCI "cervesa".data "cerveza".data) s
  let s := subScanPrev (matchWordCI "patata5".data "patatas".data) s
  let s := subScanPrev matchTorIlla s
  let s := subScanPrev (matchWordCI "tapa5".data "tapas".data) s
  subScanPrev (matchWordCI "pollo5".data "pollos".data) s

/-- Embedding of fix_common_ocr_errors of src/utils/text_cleaning.py:
price-format repair, then the glyph loops, then the word corrections. -/
def fixCommonOcrErrors (s : Str) : Str :=
  let s := subScan matchPriceSep s
  let s := glyphLoops s
  applyCorrections s

/-- Embedding of clean_text of src/utils/text_cleaning.py: empty input is
returned unchanged; otherwise whitespace around and between words is
collapsed (joining on a single space, across line breaks since str.split
with no argument splits on every whitespace character including the
newline), OCR errors are fixed, bullet characters become hyphens
(replacement of a one-character substring, hence a map), and
non-printable characters other than the newline are removed. -/
def cleanText (s : Str) : Str :=
  if s = [] then []
  else
    let t1 := joinSpace (pySplit s)
    let t2 := fixCommonOcrErrors t1
    let t3 := t2.map (fun c => if c = '•' then '-' else c)
    t3.filter (fun c => pyIsPrintable c || c = '\n')

/-- Embedding of normalize_text of src/utils/text_cleaning.py: lowercase,
then remove accents. -/
def normalizeText (s : Str) : Str :=
  (s.map pyLowerChar).map stripAccentChar
/-! Data model of src/models/menu_item.py. -/

/-- Embedding of the MenuItem class: a name, an optional price and an
optional description. -/
structure MenuItem where
  name : Str
  price : Option ℚ
  description : Option Str
deriving DecidableEq, Repr

/-- Embedding of the MenuCategory class: a name and an ordered list of
items. -/
structure MenuCategory where
  name : Str
  items : List MenuItem
deriving DecidableEq, Repr

/-! Embedding of src/processors/text_processor.py. -/

/-- The eleven price regular expressions of TextProcessor.price_patterns,
in source order. -/
inductive PricePattern
  | decEuroAfter
  | euroBeforeDec
  | decEUR
  | decEuros
  | intEuroAfter
  | euroBeforeInt
  | dollarBeforeDec
  | decDollar
  | dollarBeforeInt
  | intDollar
  | rangeTwoGroups
deriving DecidableEq, Repr

/-- Captured groups of a price match: one group for the ten single-number
patterns, two groups for the range pattern. -/
inductive PriceGroups
  | one (g : Str)
  | two (g1 g2 : Str)
deriving DecidableEq, Repr

/-- Match of a decimal number with one or more digits, a period or comma,
and one or more digits, at the current position; returns the matched
text and the rest.  The greedy digit runs need no backtracking since a
shorter run would leave a digit where a non-digit is required. -/
def matchDecNum (s : Str) : Option (Str × Str) :=
  let d1 := s.takeWhile Char.isDigit
  if d1 = [] then none
  else
    match s.drop d1.length with
    | c :: r2 =>
      if c = '.' || c = ',' then
        let d2 := r2.takeWhile Char.isDigit
        if d2 = [] then none else some (d1 ++ c :: d2, r2.drop d2.length)
      else none
    | [] => none

/-- Match of an integer (one or more digits) at the current position. -/
def matchIntNum (s : Str) : Option (Str × Str) :=
  if s.takeWhile Char.isDigit = [] then none
  else some (s.takeWhile Char.isDigit, s.drop (s.takeWhile Char.isDigit).length)

/-- Split at the maximal run of regex whitespace. -/
def skipSpaces (s : Str) : Str × Str :=
  (s.takeWhile pyIsSpace, s.dropWhile pyIsSpace)

/-- Matcher, at one position, of the range pattern: digits, a hyphen or
comma, optional whitespace, digits, then one whitespace or euro
character (consumed by the match).  The greedy runs need no
backtracking since a shorter digit run would leave a digit where the
trailing class requires whitespace or the euro sign. -/
def matchAtRange (s : Str) : Option (Str × PriceGroups) :=
  match matchIntNum s with
  | none => none
  | some (g1, r) =>
    match r with
    | c :: r1 =>
      if c = '-' || c = ',' then
        match matchIntNum (r1.dropWhile pyIsSpace) with
        | none => none
        | some (g2, r3) =>
          match r3 with
          | d :: _ =>
            if pyIsSpace d || d = '€' then
              some (g1 ++ c :: r1.takeWhile pyIsSpace ++ g2 ++ [d], .two g1 g2)
            else none
          | [] => none
      else none
    | [] => none

/-- Matcher, at one position, of each price pattern; returns the full
matched text and the captured groups. -/
def matchAtPattern : PricePattern → Str → Option (Str × PriceGroups)
  | .decEuroAfter, s =>
    match matchDecNum s with
    | none => none
    | some (g, r) =>
      let (sp, r2) := skipSpaces r
      match r2 with
      | '€' :: _ => some (g ++ sp ++ ['€'], .one g)
      | _ => none
  | .euroBeforeDec, s =>
    match s with
    | '€' :: r =>
      let (sp, r2) := skipSpaces r
      match matchDecNum r2 with
      | none => none
      | some (g, _) => some ('€' :: sp ++ g, .one g)
    | _ => none
  | .decEUR, s =>
    match matchDecNum s with
    | none => none
    | some (g, r) =>
      let (sp, r2) := skipSpaces r
      if List.isPrefixOf "EUR".data r2 then some (g ++ sp ++ "EUR".data, .one g)
      else none
  | .decEuros, s =>
    match matchDecNum s with
    | none => none
    | some (g, r) =>
      let (sp, r2) := skipSpaces r
      if List.isPrefixOf "euros".data r2 then some (g ++ sp ++ "euros".data, .one g)
      else none
  | .intEuroAfter, s =>
    match matchIntNum s with
    | none => none
    | some (g, r) =>
      let (sp, r2) := skipSpaces r
      match r2 with
      | '€' :: _ => some (g ++ sp ++ ['€'], .one g)
      | _ => none
  | .euroBeforeInt, s =>
    match s with
    | '€' :: r =>
      let (sp, r2) := skipSpaces r
      match matchIntNum r2 with
      | none => none
      | some (g, _) => some ('€' :: sp ++ g, .one g)
    | _ => none
  | .dollarBeforeDec, s =>
    match s with
    | '$' :: r =>
      let (sp, r2) := skipSpaces r
      match matchDecNum r2 with
      | none => none
      | some (g, _) => some ('$' :: sp ++ g, .one g)
    | _ => none
  | .decDollar, s =>
    match matchDecNum s with
    | none => none
    | some (g, r) =>
      match r with
      | '$' :: _ => some (g ++ ['$'], .one g)
      | _ => none
  | .dollarBeforeInt, s =>
    match s with
    | '$' :: r =>
      let (sp, r2) := skipSpaces r
      match matchIntNum r2 with
      | none => none
      | some (g, _) => some ('$' :: sp ++ g, .one g)
    | _ => none
  | .intDollar, s =>
    match matchIntNum s with
    | none => none
    | some (g, r) =>
      match r with
      | '$' :: _ => some (g ++ ['$'], .one g)
      | _ => none
  | .rangeTwoGroups, s => matchAtRange s

/-- Model of re.search: try the matcher at every position from the left;
the first position with a match wins. -/
def reSearch (m : Str → Option α) : Str → Option α
  | [] => m []
  | c :: cs =>
    match m (c :: cs) with
    | some r => some r
    | none => reSearch m cs

/-- Search for one price pattern anywhere in the text. -/
def searchPricePattern (p : PricePattern) (s : Str) : Option (Str × PriceGroups) :=
  reSearch (matchAtPattern p) s

/-- The pattern list in the order of TextProcessor.price_patterns. -/
def pricePatterns : List PricePattern :=
  [.decEuroAfter, .euroBeforeDec, .decEUR, .decEuros, .intEuroAfter,
   .euroBeforeInt, .dollarBeforeDec, .decDollar, .dollarBeforeInt,
   .intDollar, .rangeTwoGroups]

/-- Value of a digit string. -/
def digitsToNat (s : Str) : Nat :=
  s.foldl (fun n c => 10 * n + (c.toNat - '0'.toNat)) 0

/-- Python float() on the strings produced by the price patterns, with
exact-rational semantics: one or more digits, optionally followed by a
period and one or more digits; anything else raises ValueError,
modelled as none. -/
def parsePyFloat (s : Str) : Option ℚ :=
  if s.takeWhile Char.isDigit = [] then none
  else
    match s.dropWhile Char.isDigit with
    | [] => some (digitsToNat (s.takeWhile Char.isDigit))
    | '.' :: frac =>
      if frac ≠ [] && frac.all Char.isDigit then
        some (digitsToNat (s.takeWhile Char.isDigit) +
          (digitsToNat frac : ℚ) / (10 ^ frac.length))
      else none
    | _ => none

/-- Numeric value computed by _extract_price from the captured groups:
for a single group, commas become periods and the string is parsed; for
two groups (the range pattern) the two strings are joined with a period
and parsed. -/
def groupsValue : PriceGroups → Option ℚ
  | .one g => parsePyFloat (g.map (fun c => if c = ',' then '.' else c))
  | .two g1 g2 => parsePyFloat (g1 ++ '.' :: g2)

/-- Loop of _extract_price over the pattern list: the first pattern whose
search succeeds and whose groups parse determines the result; a parse
failure falls through to the next pattern (the except branch). -/
def extractPriceAux : List PricePattern → Str → Option Str × Option ℚ
  | [], _ => (none, none)
  | p :: ps, t =>
    match searchPricePattern p t with
    | none => extractPriceAux ps t
    | some (full, gs) =>
      match groupsValue gs with
      | none => extractPriceAux ps t
      | some v => (some full, some v)

/-- Embedding of TextProcessor._extract_price. -/
def extractPrice (t : Str) : Option Str × Option ℚ :=
  extractPriceAux pricePatterns t

/-- Python str.replace(old, new-empty): removal of every non-overlapping
occurrence of a (non-empty) substring, scanning from the left.  The
pattern passed by the source is a regex full match, which is never
empty; the length guard only serves termination of the embedding. -/
def replaceAllSubF (pat : Str) : Nat → Str → Str
  | _, [] => []
  | 0, s => s
  | fuel + 1, c :: cs =>
    if List.isPrefixOf pat (c :: cs) && pat ≠ [] then
      replaceAllSubF pat fuel (List.drop (max pat.length 1) (c :: cs))
    else c :: replaceAllSubF pat fuel cs

/-- Removal of all occurrences of a substring. -/
def replaceAllSub (pat s : Str) : Str := replaceAllSubF pat s.length s

/-- Regex sub of a leading run and a trailing run of non-word characters
with the empty string (the pattern anchored alternation of
caret-non-word-plus and non-word-plus-dollar); equivalent to dropping
the maximal non-word runs at both ends. -/
def stripNonWord (s : Str) : Str :=
  ((s.dropWhile (fun c => !isWordChar c)).reverse.dropWhile
    (fun c => !isWordChar c)).reverse

/-- Python line.split(colon, 1): the part before the first colon and the
part after it.  The source only evaluates the second component when the
line contains a colon. -/
def splitFirstColon : Str → Str × Str
  | [] => ([], [])
  | c :: cs =>
    if c = ':' then ([], cs)
    else
      let p := splitFirstColon cs
      (c :: p.1, p.2)

/-- Embedding of TextProcessor._process_menu_item_line.  The source tests
the matched price text for truthiness; the match produced by
_extract_price is never the empty string, so the test is modelled by
the option. -/
def processMenuItemLine (line : Str) : Option MenuItem :=
  if line.length < 3 then none
  else
    match extractPrice line with
    | (some priceMatch, priceValue) =>
      if (stripNonWord (pyStrip (replaceAllSub priceMatch line))).length < 3 then none
      else some ⟨stripNonWord (pyStrip (replaceAllSub priceMatch line)), priceValue, none⟩
    | (none, _) =>
      if line.length > 30 && line.contains ':' then
        some ⟨pyStrip (splitFirstColon line).1, none,
          some (pyStrip (splitFirstColon line).2)⟩
      else some ⟨pyStrip line, none, none⟩

/-- The category indicator word list of TextProcessor.category_indicators. -/
def categoryIndicators : List Str :=
  ["entrantes".data, "aperitivos".data, "primeros".data, "segundos".data,
   "postres".data, "bebidas".data, "vinos".data, "cervezas".data,
   "refrescos".data, "cafés".data, "especialidades".data, "platos".data,
   "menú".data, "combo".data, "principal".data, "ensaladas".data,
   "sopas".data, "carnes".data, "pescados".data, "mariscos".data,
   "vegetariano".data, "vegano".data, "hamburguesas".data, "pizzas".data,
   "pastas".data, "arroces".data, "tapas".data, "raciones".data,
   "desayunos".data, "almuerzos".data, "cenas".data, "sugerencias".data,
   "recomendaciones".data]

/-- Python substring containment (the in operator on strings). -/
def containsSub (pat : Str) : Str → Bool
  | [] => List.isPrefixOf pat []
  | c :: cs => List.isPrefixOf pat (c :: cs) || containsSub pat cs

/-- A Python tuple of two elements is truthy regardless of its contents;
_extract_price always returns a two-element tuple, so the negated
truthiness test of the single-word header rule is always false. -/
def pyTupleTruthy (_ : Option Str × Option ℚ) : Bool := true

/-- Uppercase header rule of _identify_categories: the line is entirely
upper case and longer than 3 characters. -/
def upperRule (line : Str) : Bool :=
  pyIsUpper line && line.length > 3

/-- Indicator header rule: the normalized lowercased line contains one of
the category indicator words as a substring. -/
def indicatorRule (line : Str) : Bool :=
  categoryIndicators.any fun ind =>
    containsSub ind (normalizeText (line.map pyLowerChar))

/-- Short-line header rule: at most 3 words, fewer than 20 characters, a
following line exists and is strictly longer, and the line contains no
colon. -/
def shortRule (line : Str) (next : Option Str) : Bool :=
  decide ((pySplit line).length ≤ 3) && decide (line.length < 20) &&
  (match next with
   | some nl => decide (line.length < nl.length)
   | none => false) &&
  !line.contains ':'

/-- Single-word header rule: exactly one word, longer than 3 characters,
and a falsy _extract_price result; the result tuple is always truthy,
so this rule never fires. -/
def singleWordRule (line : Str) : Bool :=
  decide ((pySplit line).length = 1) && decide (line.length > 3) &&
  !pyTupleTruthy (extractPrice line)

/-- Header decision of _identify_categories for one line, given the
following line when one exists. -/
def isCategoryLine (line : Str) (next : Option Str) : Bool :=
  upperRule line || indicatorRule line || shortRule line next || singleWordRule line

/-- Category name formed from a header line: strip, then remove the
trailing run of colons and periods (the regex sub of the class colon
period, one or more, anchored at the end). -/
def stripTrailingPunct (s : Str) : Str :=
  (s.reverse.dropWhile (fun c => c = ':' || c = '.')).reverse

/-- Loop of _identify_categories: the accumulator holds the categories in
reverse order, the head being the current category accepting items. -/
def identifyCategoriesGo : List Str → List MenuCategory → List MenuCategory
  | [], acc => acc.reverse
  | line :: rest, acc =>
    if isCategoryLine line rest.head? then
      identifyCategoriesGo rest (⟨stripTrailingPunct (pyStrip line), []⟩ :: acc)
    else
      match acc with
      | [] => identifyCategoriesGo rest []
      | cur :: others =>
        match processMenuItemLine line with
        | some item =>
          identifyCategoriesGo rest ({ cur with items := cur.items ++ [item] } :: others)
        | none => identifyCategoriesGo rest acc

/-- Embedding of TextProcessor._identify_categories. -/
def identifyCategories (lines : List Str) : List MenuCategory :=
  identifyCategoriesGo lines []

/-- Line preparation of process_text: clean the text, split on newlines,
strip each line and drop the empty ones. -/
def processedLines (text : Str) : List Str :=
  ((splitLines (cleanText text)).map pyStrip).filter (fun l => l ≠ [])

/-- Category construction of process_text: identify categories and, when
none was identified, fall back to one default category fed every line
through the item parser. -/
def buildCategories (lines : List Str) : List MenuCategory :=
  if identifyCategories lines = [] then
    [⟨"Menu Items".data, lines.filterMap processMenuItemLine⟩]
  else identifyCategories lines

/-- Embedding of TextProcessor.process_text: clean the text, split into
stripped non-empty lines, identify categories, fall back to a single
default category when none was identified, and drop empty categories. -/
def processText (text : Str) : List MenuCategory :=
  (buildCategories (processedLines text)).filter (fun c => c.items ≠ [])

/-! Theorems settling the claims. -/

/-- Helper: a successfully parsed float value is non-negative. -/
lemma parsePyFloat_nonneg {s : Str} {v : ℚ} (h : parsePyFloat s = some v) :
    0 ≤ v := by
  unfold parsePyFloat at h
  split at h
  · exact absurd h (by simp)
  · split at h
    · cases h
      exact Nat.cast_nonneg _
    · split at h
      · cases h
        exact add_nonneg (Nat.cast_nonneg _)
          (div_nonneg (Nat.cast_nonneg _) (by positivity))
      · exact absurd h (by simp)
    · exact absurd h (by simp)

/-- Helper: takeWhile on an all-digit prefix followed by a period. -/
lemma takeWhile_digits_dot (g1 g2 : Str) (hd1 : g1.all Char.isDigit = true) :
    (g1 ++ '.' :: g2).takeWhile Char.isDigit = g1 := by
  induction g1 with
  | nil => simp [List.takeWhile]
  | cons c cs ih =>
    simp only [List.all_cons, Bool.and_eq_true] at hd1
    simp [List.takeWhile, hd1.1, ih hd1.2]

/-- Helper: dropWhile on an all-digit prefix followed by a period. -/
lemma dropWhile_digits_dot (g1 g2 : Str) (hd1 : g1.all Char.isDigit = true) :
    (g1 ++ '.' :: g2).dropWhile Char.isDigit = '.' :: g2 := by
  induction g1 with
  | nil => simp [List.dropWhile]
  | cons c cs ih =>
    simp only [List.all_cons, Bool.and_eq_true] at hd1
    simp [List.dropWhile, hd1.1, ih hd1.2]

/-- Helper: parsing a non-empty digit string joined by a period with a
non-empty digit string succeeds. -/
lemma parsePyFloat_digits_dot_digits {g1 g2 : Str} (h1 : g1 ≠ [])
    (hd1 : g1.all Char.isDigit = true) (h2 : g2 ≠ [])
    (hd2 : g2.all Char.isDigit = true) :
    parsePyFloat (g1 ++ '.' :: g2) =
      some (digitsToNat g1 + (digitsToNat g2 : ℚ) / (10 ^ g2.length)) := by
  unfold parsePyFloat
  rw [takeWhile_digits_dot g1 g2 hd1, dropWhile_digits_dot g1 g2 hd1]
  simp [h1, h2, hd2]

/-- Helper: a successfully computed group value is non-negative. -/
lemma groupsValue_nonneg {gs : PriceGroups} {v : ℚ} (h : groupsValue gs = some v) :
    0 ≤ v := by
  cases gs with
  | one g => exact parsePyFloat_nonneg h
  | two g1 g2 => exact parsePyFloat_nonneg h

/-- Helper: totality and non-negativity of the pattern loop. -/
lemma extractPriceAux_total (ps : List PricePattern) (t : Str) :
    extractPriceAux ps t = (none, none) ∨
    ∃ m v, extractPriceAux ps t = (some m, some v) ∧ 0 ≤ v := by
  induction ps with
  | nil => exact Or.inl rfl
  | cons p ps ih =>
    cases hs : searchPricePattern p t with
    | none => simpa [extractPriceAux, hs] using ih
    | some r =>
      obtain ⟨full, gs⟩ := r
      cases hg : groupsValue gs with
      | none => simpa [extractPriceAux, hs, hg] using ih
      | some v =>
        exact Or.inr ⟨full, v, by simp [extractPriceAux, hs, hg],
          groupsValue_nonneg hg⟩

/-- C5: for every input line the price extractor either reports absence
as the pair (none, none) or returns a matched substring together with a
non-negative numeric value; a parse failure falls through to the next
pattern instead of escaping. -/
theorem c5_extract_price_total_nonneg (text : Str) :
    extractPrice text = (none, none) ∨
    ∃ m v, extractPrice text = (some m, some v) ∧ 0 ≤ v :=
  extractPriceAux_total pricePatterns text

/-- C1: on the raw text of the claim, build returns the empty category
list, not one ENTRANTES category with two items: clean_text collapses
the newlines, the single merged line is classified as a category header
by the indicator rule, and the resulting empty category is filtered
out. -/
theorem c1_entrantes_text_yields_no_categories :
    processText "ENTRANTES\nSopa de tomate $10.500\nEnsalada mixta $8.900".data
      = [] := by decide

/-- C2: clean_text does not preserve line breaks: on the two-line input
a, newline, b it returns the single line a, space, b, merging the two
input lines. -/
theorem c2_clean_text_merges_lines :
    cleanText "a\nb".data = "a b".data := by decide

/-- C3: clean_text is not idempotent: on the input 10, bullet, 50, euro
the first application yields 10-50 euro (the bullet substitution runs
after the OCR price repair) and the second application rewrites it to
10.50 euro. -/
theorem c3_clean_text_not_idempotent :
    cleanText "10•50€".data = "10-50€".data ∧
    cleanText (cleanText "10•50€".data) = "10.50€".data ∧
    cleanText (cleanText "10•50€".data) ≠ cleanText "10•50€".data := by decide

/-- C4: the OCR glyph fix rewrites a digit-adjacent lowercase l to 0, not
to 1: the replacement function of the source inserts the dictionary
value of the current loop iteration, which is 0 on the first pass,
regardless of which glyph matched. -/
theorem c4_glyph_l_becomes_zero :
    fixCommonOcrErrors "5l€".data = "50€".data ∧
    fixCommonOcrErrors "5l€".data ≠ "51€".data := by decide

/-- Helper: a successful search has a successful match at some suffix. -/
lemma reSearch_some {α : Type} {m : Str → Option α} {s : Str} {r : α}
    (h : reSearch m s = some r) : ∃ t, m t = some r := by
  induction s with
  | nil => exact ⟨[], h⟩
  | cons c cs ih =>
    rw [reSearch] at h
    cases hm : m (c :: cs) with
    | some x =>
      rw [hm] at h
      exact ⟨c :: cs, hm.trans h⟩
    | none =>
      rw [hm] at h
      exact ih h

/-- Helper: an integer match yields a non-empty digit string. -/
lemma matchIntNum_some {s g r : Str} (h : matchIntNum s = some (g, r)) :
    g ≠ [] ∧ g.all Char.isDigit = true := by
  unfold matchIntNum at h
  split at h
  · exact absurd h (by simp)
  · rename_i hne
    cases h
    refine ⟨hne, ?_⟩
    rw [List.all_eq_true]
    intro c hc
    exact List.mem_takeWhile_imp hc

/-- Helper: a match of the range pattern captures two non-empty digit
strings. -/
lemma matchAtRange_groups {s full : Str} {gs : PriceGroups}
    (h : matchAtRange s = some (full, gs)) :
    ∃ g1 g2, gs = .two g1 g2 ∧ g1 ≠ [] ∧ g1.all Char.isDigit = true ∧
      g2 ≠ [] ∧ g2.all Char.isDigit = true := by
  unfold matchAtRange at h
  cases hm1 : matchIntNum s with
  | none => rw [hm1] at h; cases h
  | some p1 =>
    obtain ⟨g1, r⟩ := p1
    rw [hm1] at h
    cases r with
    | nil => cases h
    | cons c r1 =>
      simp only [] at h
      split at h
      · cases hm2 : matchIntNum (r1.dropWhile pyIsSpace) with
        | none => rw [hm2] at h; cases h
        | some p2 =>
          obtain ⟨g2, r3⟩ := p2
          rw [hm2] at h
          cases r3 with
          | nil => cases h
          | cons d r4 =>
            simp only [] at h
            split at h
            · cases h
              obtain ⟨hg1, hd1⟩ := matchIntNum_some hm1
              obtain ⟨hg2, hd2⟩ := matchIntNum_some hm2
              exact ⟨g1, g2, rfl, hg1, hd1, hg2, hd2⟩
            · cases h
      · cases h

/-- Helper: the pattern dispatch at the range constructor. -/
lemma matchAtPattern_range (s : Str) :
    matchAtPattern .rangeTwoGroups s = matchAtRange s := rfl

/-- C6: whenever the first ten price patterns find no match in a line and
the two-quantity range pattern does match, _extract_price returns the
full match together with the number parsed from the first group, a
period, and the second group, and that parse succeeds. -/
theorem c6_range_match_concatenates_groups (line full g1 g2 : Str)
    (h1 : searchPricePattern .decEuroAfter line = none)
    (h2 : searchPricePattern .euroBeforeDec line = none)
    (h3 : searchPricePattern .decEUR line = none)
    (h4 : searchPricePattern .decEuros line = none)
    (h5 : searchPricePattern .intEuroAfter line = none)
    (h6 : searchPricePattern .euroBeforeInt line = none)
    (h7 : searchPricePattern .dollarBeforeDec line = none)
    (h8 : searchPricePattern .decDollar line = none)
    (h9 : searchPricePattern .dollarBeforeInt line = none)
    (h10 : searchPricePattern .intDollar line = none)
    (h11 : searchPricePattern .rangeTwoGroups line = some (full, .two g1 g2)) :
    extractPrice line = (some full, parsePyFloat (g1 ++ '.' :: g2)) ∧
    ∃ v, parsePyFloat (g1 ++ '.' :: g2) = some v := by
  obtain ⟨t, ht⟩ := reSearch_some h11
  rw [matchAtPattern_range] at ht
  obtain ⟨g1x, g2x, hgs, hg1, hd1, hg2, hd2⟩ := matchAtRange_groups ht
  cases hgs
  have hparse := parsePyFloat_digits_dot_digits hg1 hd1 hg2 hd2
  constructor
  · simp [extractPrice, pricePatterns, extractPriceAux,
      h1, h2, h3, h4, h5, h6, h7, h8, h9, h10, h11, groupsValue, hparse]
  · exact ⟨_, hparse⟩

/-- C6 witness: on the line 10-50 followed by a space, the first ten
patterns fail, the range pattern matches, and the price is 10.50. -/
theorem c6_range_match_witness :
    extractPrice "10-50 ".data =
      (some "10-50 ".data, parsePyFloat ("10".data ++ '.' :: "50".data)) ∧
    ∃ v, parsePyFloat ("10".data ++ '.' :: "50".data) = some v :=
  c6_range_match_concatenates_groups "10-50 ".data "10-50 ".data "10".data "50".data
    (by decide) (by decide) (by decide) (by decide) (by decide) (by decide)
    (by decide) (by decide) (by decide) (by decide) (by decide)

/-- C10: every MenuItem produced by the item parser carries at most one
of a price and a description: the price branch leaves the description
empty and the two no-price branches leave the price empty. -/
theorem c10_price_description_exclusive (line : Str) (item : MenuItem)
    (h : processMenuItemLine line = some item) :
    item.price = none ∨ item.description = none := by
  unfold processMenuItemLine at h
  split at h
  · cases h
  · split at h
    · rename_i priceMatch priceValue heq
      split at h
      · cases h
      · cases h
        exact Or.inr rfl
    · split at h
      · cases h
        exact Or.inl rfl
      · cases h
        exact Or.inl rfl

/-- C10 witness: a plain name line yields an item with no price and no
description. -/
theorem c10_witness :
    processMenuItemLine "hello world item".data =
      some ⟨"hello world item".data, none, none⟩ ∧
    ((MenuItem.mk "hello world item".data none none).price = none ∨
      (MenuItem.mk "hello world item".data none none).description = none) :=
  ⟨by decide,
    c10_price_description_exclusive "hello world item".data
      ⟨"hello world item".data, none, none⟩ (by decide)⟩

/-- C7 counterexample: the line a, b, space, euro has 2 words, 4
characters, a strictly longer following line, and contains the euro
currency symbol, yet the classifier marks it as a header (the source
checks for a colon, not for a currency symbol). -/
theorem c7_counterexample_currency_header :
    (pySplit "ab €".data).length ≤ 3 ∧ ("ab €".data).length < 20 ∧
    ("ab €".data).length < ("abcdefgh".data).length ∧
    '€' ∈ "ab €".data ∧
    upperRule "ab €".data = false ∧ indicatorRule "ab €".data = false ∧
    singleWordRule "ab €".data = false ∧
    isCategoryLine "ab €".data (some "abcdefgh".data) = true := by decide

/-- C7 amended: a line with 3 or fewer words, fewer than 20 characters,
a following line that is strictly longer, and no other header rule
applying, is classified as a header exactly when it contains no colon
character. -/
theorem c7_short_header_rule_checks_colon (line nl : Str)
    (h1 : (pySplit line).length ≤ 3) (h2 : line.length < 20)
    (h3 : line.length < nl.length)
    (h4 : upperRule line = false) (h5 : indicatorRule line = false)
    (h6 : singleWordRule line = false) :
    isCategoryLine line (some nl) = true ↔ ':' ∉ line := by
  simp only [isCategoryLine, h4, h5, h6, Bool.false_or, Bool.or_false]
  simp [shortRule, h1, h2, h3, List.contains_iff_exists_mem_beq]

/-- C7 witness: the amended rule applied to the line a, b, c with a
longer following line. -/
theorem c7_witness :
    ((pySplit "abc".data).length ≤ 3 ∧ ("abc".data).length < 20 ∧
      ("abc".data).length < ("abcdefgh".data).length) ∧
    (isCategoryLine "abc".data (some "abcdefgh".data) = true ↔
      ':' ∉ "abc".data) :=
  ⟨by decide,
    c7_short_header_rule_checks_colon "abc".data "abcdefgh".data
      (by decide) (by decide) (by decide) (by decide) (by decide) (by decide)⟩

/-- C8: every category returned by process_text has a non-empty item
list; the final filter removes all empty categories, including the
fallback default category when it gathered no items. -/
theorem c8_no_empty_categories (text : Str) (cat : MenuCategory)
    (h : cat ∈ processText text) : cat.items ≠ [] := by
  unfold processText at h
  exact of_decide_eq_true (List.mem_filter.mp h).2

/-- C8 witness: a single plain item line yields the default category with
one item, which is non-empty. -/
theorem c8_witness :
    (⟨"Menu Items".data, [⟨"hello world item".data, none, none⟩]⟩ : MenuCategory)
      ∈ processText "hello world item".data ∧
    (⟨"Menu Items".data, [⟨"hello world item".data, none, none⟩]⟩ :
      MenuCategory).items ≠ [] :=
  ⟨by decide,
    c8_no_empty_categories "hello world item".data
      ⟨"Menu Items".data, [⟨"hello world item".data, none, none⟩]⟩ (by decide)⟩

/-! Lemmas for C9: the cleaned text contains no newline, so process_text
always works on at most one line. -/

/-- Helper: every word produced by the split accumulator consists of
non-whitespace characters. -/
lemma pySplitAux_no_space :
    ∀ (s cur : Str), (∀ c ∈ cur, pyIsSpace c = false) →
      ∀ w ∈ pySplitAux s cur, ∀ c ∈ w, pyIsSpace c = false := by
  intro s
  induction s with
  | nil =>
    intro cur hcur w hw c hc
    unfold pySplitAux at hw
    split at hw
    · cases hw
    · rw [List.mem_singleton] at hw
      subst hw
      exact hcur c (List.mem_reverse.mp hc)
  | cons a as ih =>
    intro cur hcur w hw c hc
    unfold pySplitAux at hw
    split at hw
    · split at hw
      · exact ih [] (by simp) w hw c hc
      · rcases List.mem_cons.mp hw with hw | hw
        · subst hw
          exact hcur c (List.mem_reverse.mp hc)
        · exact ih [] (by simp) w hw c hc
    · rename_i hna
      refine ih (a :: cur) ?_ w hw c hc
      intro x hx
      rcases List.mem_cons.mp hx with hx | hx
      · subst hx
        exact Bool.not_eq_true _ ▸ (by simpa using hna)
      · exact hcur x hx

/-- Helper: a character of a space-join is a space or belongs to one of
the joined words. -/
lemma joinSpace_mem {ws : List Str} {c : Char} (hc : c ∈ joinSpace ws) :
    c = ' ' ∨ ∃ w ∈ ws, c ∈ w := by
  induction ws with
  | nil => cases hc
  | cons w ws ih =>
    cases ws with
    | nil => exact Or.inr ⟨w, List.mem_singleton.mpr rfl, hc⟩
    | cons w2 ws2 =>
      have hj : joinSpace (w :: w2 :: ws2) = w ++ ' ' :: joinSpace (w2 :: ws2) := rfl
      rw [hj] at hc
      rcases List.mem_append.mp hc with h | h
      · exact Or.inr ⟨w, List.mem_cons_self _ _, h⟩
      · rcases List.mem_cons.mp h with h | h
        · exact Or.inl h
        · rcases ih h with h | ⟨x, hx, hcx⟩
          · exact Or.inl h
          · exact Or.inr ⟨x, List.mem_cons_of_mem _ hx, hcx⟩

/-- Helper: the space-join of the whitespace split contains no newline. -/
lemma joinSpace_pySplit_no_newline (s : Str) : '\n' ∉ joinSpace (pySplit s) := by
  intro h
  rcases joinSpace_mem h with h | ⟨w, hw, hc⟩
  · cases h
  · have := pySplitAux_no_space s [] (by simp) w hw _ hc
    simp [pyIsSpace] at this

/-- Helper: a character property is preserved by the substitution scanner
whenever every replacement emitted on a good text is good. -/
lemma subScanF_pres {P : Char → Prop} {m : Str → Option (Nat × Str)}
    (hm : ∀ t, (∀ c ∈ t, P c) → ∀ n repl, m t = some (n, repl) →
      ∀ c ∈ repl, P c) :
    ∀ (fuel : Nat) (s : Str), (∀ c ∈ s, P c) →
      ∀ c ∈ subScanF m fuel s, P c := by
  intro fuel
  induction fuel with
  | zero =>
    intro s hs c hc
    cases s with
    | nil => cases hc
    | cons a as => exact hs c hc
  | succ fuel ih =>
    intro s hs c hc
    cases s with
    | nil => cases hc
    | cons a as =>
      rw [subScanF] at hc
      cases hmt : m (a :: as) with
      | none =>
        rw [hmt] at hc
        rcases List.mem_cons.mp hc with hc | hc
        · exact hc ▸ hs a (List.mem_cons_self _ _)
        · exact ih as (fun x hx => hs x (List.mem_cons_of_mem _ hx)) c hc
      | some r =>
        obtain ⟨n, repl⟩ := r
        rw [hmt] at hc
        rcases List.mem_append.mp hc with hc | hc
        · exact hm (a :: as) hs n repl hmt c hc
        · exact ih _ (fun x hx => hs x (List.mem_of_mem_drop hx)) c hc

/-- Helper: the same preservation for the left-context scanner. -/
lemma subScanPrevF_pres {P : Char → Prop}
    {m : Option Char → Str → Option (Nat × Str)}
    (hm : ∀ prev t, (∀ c ∈ t, P c) → ∀ n repl, m prev t = some (n, repl) →
      ∀ c ∈ repl, P c) :
    ∀ (fuel : Nat) (prev : Option Char) (s : Str), (∀ c ∈ s, P c) →
      ∀ c ∈ subScanPrevF m fuel prev s, P c := by
  intro fuel
  induction fuel with
  | zero =>
    intro prev s hs c hc
    cases s with
    | nil => cases hc
    | cons a as => exact hs c hc
  | succ fuel ih =>
    intro prev s hs c hc
    cases s with
    | nil => cases hc
    | cons a as =>
      rw [subScanPrevF] at hc
      cases hmt : m prev (a :: as) with
      | none =>
        rw [hmt] at hc
        rcases List.mem_cons.mp hc with hc | hc
        · exact hc ▸ hs a (List.mem_cons_self _ _)
        · exact ih _ as (fun x hx => hs x (List.mem_cons_of_mem _ hx)) c hc
      | some r =>
        obtain ⟨n, repl⟩ := r
        rw [hmt] at hc
        rcases List.mem_append.mp hc with hc | hc
        · exact hm prev (a :: as) hs n repl hmt c hc
        · exact ih _ _ (fun x hx => hs x (List.mem_of_mem_drop hx)) c hc

/-- Helper: replacements of the price-repair substitution consist of
digits and a period. -/
lemma matchPriceSep_repl {t : Str} {n : Nat} {repl : Str}
    (h : matchPriceSep t = some (n, repl)) :
    ∀ c ∈ repl, c = '.' ∨ c.isDigit = true := by
  simp only [matchPriceSep] at h
  split at h
  · cases h
  · split at h
    · cases h
    · split at h
      · split at h
        · rename_i hcond
          cases h
          intro c hc
          rcases List.mem_append.mp hc with hc | hc
          · exact Or.inr (List.mem_takeWhile_imp hc)
          · simp only [Bool.and_eq_true] at hcond
            rcases List.mem_cons.mp hc with hc | hc
            · exact Or.inl hc
            · rcases List.mem_cons.mp hc with hc | hc
              · exact Or.inr (hc ▸ hcond.1.1)
              · rw [List.mem_singleton] at hc
                exact Or.inr (hc ▸ hcond.1.2)
        · cases h
      · cases h

/-- Helper: no newline survives the price-repair substitution. -/
lemma subScan_priceSep_no_newline (s : Str) (hs : ∀ c ∈ s, c ≠ '\n') :
    ∀ c ∈ subScan matchPriceSep s, c ≠ '\n' := by
  refine subScanF_pres ?_ s.length s hs
  intro t ht n repl hmt c hc
  rcases matchPriceSep_repl hmt c hc with h | h
  · simp [h]
  · intro hcn
    rw [hcn] at h
    cases h

/-- Helper: no newline survives one glyph substitution with a non-newline
replacement character. -/
lemma subScan_glyph_no_newline (p1 p3 : Char → Bool) (mid : Char)
    (hmid : mid ≠ '\n') (s : Str) (hs : ∀ c ∈ s, c ≠ '\n') :
    ∀ c ∈ subScan (matchGlyph3 p1 p3 mid) s, c ≠ '\n' := by
  refine subScanF_pres ?_ s.length s hs
  intro t ht n repl hmt c hc
  cases t with
  | nil => cases hmt
  | cons a t1 =>
    cases t1 with
    | nil => cases hmt
    | cons b t2 =>
      cases t2 with
      | nil => cases hmt
      | cons d t3 =>
        simp only [matchGlyph3] at hmt
        split at hmt
        · cases hmt
          rcases List.mem_cons.mp hc with hc | hc
          · exact hc ▸ ht a (List.mem_cons_self _ _)
          · rcases List.mem_cons.mp hc with hc | hc
            · exact hc ▸ hmid
            · rw [List.mem_singleton] at hc
              exact hc ▸ ht d (by simp)
        · cases hmt

/-- Helper: no newline survives the full glyph pattern application. -/
lemma applyGlyphPattern_no_newline (p : (Char → Bool) × (Char → Bool))
    (s : Str) (hs : ∀ c ∈ s, c ≠ '\n') :
    ∀ c ∈ applyGlyphPattern p s, c ≠ '\n' := by
  simp only [applyGlyphPattern, replacementsList, List.foldl]
  exact subScan_glyph_no_newline _ _ '1' (by decide) _
    (subScan_glyph_no_newline _ _ '1' (by decide) _
      (subScan_glyph_no_newline _ _ '0' (by decide) _ hs))

/-- Helper: no newline survives the inner glyph loop. -/
lemma glyphInnerLoop_no_newline (s : Str) (hs : ∀ c ∈ s, c ≠ '\n') :
    ∀ c ∈ glyphInnerLoop s, c ≠ '\n' := by
  simp only [glyphInnerLoop, glyphPatterns, List.foldl]
  exact applyGlyphPattern_no_newline _ _
    (applyGlyphPattern_no_newline _ _ (applyGlyphPattern_no_newline _ _ hs))

/-- Helper: no newline survives the glyph loops. -/
lemma glyphLoops_no_newline (s : Str) (hs : ∀ c ∈ s, c ≠ '\n') :
    ∀ c ∈ glyphLoops s, c ≠ '\n' := by
  simp only [glyphLoops, glyphPatterns, List.foldl]
  exact glyphInnerLoop_no_newline _
    (glyphInnerLoop_no_newline _ (glyphInnerLoop_no_newline _ hs))

/-- Helper: a whole-word correction replaces with exactly the requested
replacement. -/
lemma matchWordCI_repl {w repl : Str} {prev : Option Char} {s : Str}
    {n : Nat} {r : Str} (h : matchWordCI w repl prev s = some (n, r)) :
    r = repl := by
  unfold matchWordCI at h
  split at h
  · cases h
  · split at h
    · cases h
    · split at h
      · cases h
        rfl
      · cases h

/-- Helper: the tor+illa correction replaces with the word tortilla. -/
lemma matchTorIlla_repl {prev : Option Char} {s : Str} {n : Nat} {r : Str}
    (h : matchTorIlla prev s = some (n, r)) : r = "tortilla".data := by
  simp only [matchTorIlla] at h
  split at h
  · cases h
  · split at h
    · cases h
    · split at h
      · cases h
      · split at h
        · cases h
        · split at h
          · cases h
            rfl
          · cases h

/-- Helper: no newline survives one whole-word correction whose
replacement has no newline. -/
lemma subScanPrev_word_no_newline (w repl : Str)
    (hrepl : ∀ c ∈ repl, c ≠ '\n') (s : Str) (hs : ∀ c ∈ s, c ≠ '\n') :
    ∀ c ∈ subScanPrev (matchWordCI w repl) s, c ≠ '\n' := by
  refine subScanPrevF_pres ?_ s.length none s hs
  intro prev t ht n r hmt c hc
  exact hrepl c (matchWordCI_repl hmt ▸ hc)

/-- Helper: no newline survives the tor+illa correction. -/
lemma subScanPrev_torilla_no_newline (s : Str) (hs : ∀ c ∈ s, c ≠ '\n') :
    ∀ c ∈ subScanPrev matchTorIlla s, c ≠ '\n' := by
  refine subScanPrevF_pres ?_ s.length none s hs
  intro prev t ht n r hmt c hc
  rw [matchTorIlla_repl hmt] at hc
  have hall : ∀ x ∈ "tortilla".data, x ≠ '\n' := by decide
  exact hall c hc

/-- Helper: no newline survives the correction dictionary. -/
lemma applyCorrections_no_newline (s : Str) (hs : ∀ c ∈ s, c ≠ '\n') :
    ∀ c ∈ applyCorrections s, c ≠ '\n' := by
  unfold applyCorrections
  refine subScanPrev_word_no_newline _ _ (by decide) _ ?_
  refine subScanPrev_word_no_newline _ _ (by decide) _ ?_
  refine subScanPrev_torilla_no_newline _ ?_
  refine subScanPrev_word_no_newline _ _ (by decide) _ ?_
  refine subScanPrev_word_no_newline _ _ (by decide) _ ?_
  refine subScanPrev_word_no_newline _ _ (by decide) _ ?_
  refine subScanPrev_word_no_newline _ _ (by decide) _ ?_
  exact subScanPrev_word_no_newline _ _ (by decide) _ hs

/-- Helper: clean_text output never contains a newline: the initial
whitespace collapse removes every newline and no later stage introduces
one. -/
lemma cleanText_no_newline (t : Str) : '\n' ∉ cleanText t := by
  intro h
  unfold cleanText at h
  split at h
  · cases h
  · have h1 : ∀ c ∈ joinSpace (pySplit t), c ≠ '\n' := by
      intro c hc hcn
      exact joinSpace_pySplit_no_newline t (hcn ▸ hc)
    have h2 : ∀ c ∈ fixCommonOcrErrors (joinSpace (pySplit t)), c ≠ '\n' := by
      unfold fixCommonOcrErrors
      exact applyCorrections_no_newline _
        (glyphLoops_no_newline _ (subScan_priceSep_no_newline _ h1))
    have h3 := List.mem_filter.mp h
    rcases List.mem_map.mp h3.1 with ⟨c, hc, hmap⟩
    by_cases hcb : c = '•'
    · rw [hcb] at hmap
      simp at hmap
    · rw [if_neg hcb] at hmap
      exact h2 c hc hmap

/-- Helper: splitting a newline-free text on newlines yields the text as
its only line. -/
lemma splitLines_single {s : Str} (h : '\n' ∉ s) : splitLines s = [s] := by
  induction s with
  | nil => rfl
  | cons c cs ih =>
    have hcne : ¬c = '\n' := by
      intro hc
      refine h ?_
      rw [hc]
      exact List.mem_cons_self _ _
    rw [splitLines, if_neg hcne, ih (fun hm => h (List.mem_cons_of_mem _ hm))]

/-- Helper: process_text works on at most one line. -/
lemma processedLines_short (t : Str) :
    processedLines t = [] ∨ processedLines t = [pyStrip (cleanText t)] := by
  unfold processedLines
  rw [splitLines_single (cleanText_no_newline t)]
  by_cases h : pyStrip (cleanText t) = [] <;> simp [h]

/-- Helper: a one-line input produces either no category or one category
with an empty item list. -/
lemma identifyCategories_single (l : Str) :
    identifyCategories [l] = [] ∨
    identifyCategories [l] = [⟨stripTrailingPunct (pyStrip l), []⟩] := by
  unfold identifyCategories identifyCategoriesGo
  split
  · right
    rfl
  · left
    rfl

/-- Helper: every category surviving process_text carries the default
name: the newline collapse leaves at most one line, a lone header line
yields an empty category that the final filter removes, and the only
other source of categories is the default fallback. -/
lemma processText_default_name {t : Str} {cat : MenuCategory}
    (h : cat ∈ processText t) : cat.name = "Menu Items".data := by
  unfold processText at h
  have hmem := (List.mem_filter.mp h).1
  have hne := of_decide_eq_true (List.mem_filter.mp h).2
  unfold buildCategories at hmem
  rcases processedLines_short t with hl | hl <;> rw [hl] at hmem
  · simp only [identifyCategories, identifyCategoriesGo, List.reverse_nil,
      if_pos] at hmem
    rw [List.mem_singleton] at hmem
    rw [hmem]
  · rcases identifyCategories_single (pyStrip (cleanText t)) with hi | hi <;>
      rw [hi] at hmem
    · rw [if_pos rfl] at hmem
      rw [List.mem_singleton] at hmem
      rw [hmem]
    · rw [if_neg (by simp)] at hmem
      rw [List.mem_singleton] at hmem
      rw [hmem] at hne
      simp at hne

/-- C9: every category returned by process_text has a non-empty name that
ends neither in a colon nor in a period. -/
theorem c9_category_names_trimmed (text : Str) (cat : MenuCategory)
    (h : cat ∈ processText text) :
    cat.name ≠ [] ∧ cat.name.getLast? ≠ some ':' ∧
    cat.name.getLast? ≠ some '.' := by
  rw [processText_default_name h]
  refine ⟨by decide, by decide, by decide⟩

/-- C9 witness: a single plain item line yields the default category,
whose name is non-empty and free of trailing punctuation. -/
theorem c9_witness :
    (⟨"Menu Items".data, [⟨"apple pie treat".data, none, none⟩]⟩ : MenuCategory)
      ∈ processText "apple pie treat".data ∧
    (("Menu Items".data : Str) ≠ [] ∧
      ("Menu Items".data : Str).getLast? ≠ some ':' ∧
      ("Menu Items".data : Str).getLast? ≠ some '.') :=
  ⟨by decide,
    c9_category_names_trimmed "apple pie treat".data
      ⟨"Menu Items".data, [⟨"apple pie treat".data, none, none⟩]⟩ (by decide)⟩
